import Mathlib

/-!
# Request-scoped context store (`context.go`)

A shallow embedding of the package `context`: the package variable `data`
(a two-level map from request id to key to value) and the operations
`Set`, `Get`, `GetOk`, `GetAll`, `GetAllOk`, `Delete`, `Clear`.

Go maps are unordered finite maps, so they are embedded as `Finmap`, whose
equality is extensional.  A value of a Go map type may be the nil map, which
reads as empty and cannot be assigned into; it is embedded as `Option`.

The operations are embedded twice.  In `Context` a map is its contents (value
semantics): the state is the two-level map itself and an update of an inner
map rebinds the id to the updated contents.  In `Context.Heap` a map is a
reference to an object in an explicit heap (reference semantics), which is
what is needed to speak about a map that a caller keeps after `GetAll`.  The
lemmas `Set_sim`, `Delete_sim`, `Clear_sim`, `Get_sim`, `GetOk_sim`,
`GetAll_sim` and `GetAllOk_sim` show that the two agree on every state the
package can reach.  The lock `mutex` is not part of either of these states; in
`Context.Locked` the operations are given once more with their calls on
`mutex`, for what is said about panics and about the lock.
-/

namespace Context

/-! ## Data model -/

/-- Go `interface{}`: either the nil interface or a dynamic value chosen by
the caller. -/
inductive Value (α : Type) where
  | nil : Value α
  | dyn (a : α) : Value α
deriving DecidableEq, Repr

/-- The contents of an allocated `map[string]interface{}`. -/
abbrev GoMap (α : Type) := Finmap (fun _ : String => Value α)

/-- A value of Go type `map[string]interface{}`: `none` is the nil map,
`some c` an allocated map with contents `c`. -/
abbrev Bag (α : Type) := Option (GoMap α)

/-- The package state: the variable `data`, of type
`map[string]map[string]interface{}`.  It is initialised with `make` and never
reassigned, so it is always an allocated map. -/
structure Store (α : Type) where
  data : Finmap (fun _ : String => Bag α)
deriving DecidableEq

/-- The initial state, `data = make(map[string]map[string]interface{})`. -/
def Store.empty {α : Type} : Store α := ⟨∅⟩

/-! ## Go map primitives -/

/-- The comma-ok index `v, ok := data[idx]` on the outer map; the zero value
of the element type is the nil map. -/
def dataIndexOk {α : Type} (d : Finmap (fun _ : String => Bag α)) (idx : String) :
    Bag α × Bool :=
  match d.lookup idx with
  | some b => (b, true)
  | none => (none, false)

/-- The comma-ok index `v, ok := m[key]` on an inner map; a nil map reads as
empty and the zero value of `interface{}` is nil. -/
def Bag.indexOk {α : Type} (m : Bag α) (key : String) : Value α × Bool :=
  match m with
  | none => (Value.nil, false)
  | some c =>
    match c.lookup key with
    | some v => (v, true)
    | none => (Value.nil, false)

/-- The assignment `m[key] = val`; on a nil map it is a run-time panic,
rendered as `none`. -/
def Bag.assign {α : Type} (m : Bag α) (key : String) (val : Value α) : Option (GoMap α) :=
  match m with
  | none => none
  | some c => some (c.insert key val)

/-- The builtin `delete(m, key)`; a no-op on a nil map or a missing key. -/
def Bag.delete {α : Type} (m : Bag α) (key : String) : Bag α :=
  match m with
  | none => none
  | some c => some (c.erase key)

/-- The builtin `len(m)`; zero for a nil map. -/
def Bag.len {α : Type} (m : Bag α) : Nat :=
  match m with
  | none => 0
  | some c => c.keys.card

/-- The loop `result := make(..., len(context)); for k, v := range context
{ result[k] = v }`.  The capacity hint has no observable effect.  Go leaves the
iteration order unspecified; the fold runs over the entries in whatever order
they are held, and the result does not depend on it.  Ranging over a nil map
runs no iteration. -/
def rangeCopy {α : Type} (context : Bag α) : GoMap α :=
  match context with
  | none => ∅
  | some c =>
    c.liftOn (fun al => al.entries.foldl (fun r e => r.insert e.1 e.2) (∅ : GoMap α))
      (by
        intro a b p
        refine List.Perm.foldl_eq' p ?_ _
        intro x hx y hy z
        by_cases h : x.1 = y.1
        · have hxy : x = y := List.NodupKeys.eq_of_fst_eq a.nodupKeys hx hy h
          subst hxy; rfl
        · exact Finmap.insert_insert_of_ne _ h)

/-! ## The operations of `context.go` -/

/-- The call `Set` stores a value for a given key in a given request.  The result is
`none` if the assignment `data[idx][key] = val` panics. -/
def Set {α : Type} (s : Store α) (idx key : String) (val : Value α) : Option (Store α) :=
  -- if data[idx] == nil { data[idx] = make(map[string]interface{}) }
  let d1 :=
    match (dataIndexOk s.data idx).1 with
    | none => s.data.insert idx (some ∅)
    | some _ => s.data
  -- data[idx][key] = val
  match Bag.assign (dataIndexOk d1 idx).1 key val with
  | none => none
  | some c => some ⟨d1.insert idx (some c)⟩

/-- The call `Get` returns a value stored for a given key in a given request. -/
def Get {α : Type} (s : Store α) (idx key : String) : Value α :=
  -- if ctx := data[idx]; ctx != nil
  match (dataIndexOk s.data idx).1 with
  | some ctx =>
    let r := Bag.indexOk (some ctx) key
    if r.2 then r.1 else Value.nil
  | none => Value.nil

/-- The call `GetOk` returns the stored value and the presence flag. -/
def GetOk {α : Type} (s : Store α) (idx key : String) : Value α × Bool :=
  -- if _, ok := data[idx]; ok
  if (dataIndexOk s.data idx).2 then
    Bag.indexOk (dataIndexOk s.data idx).1 key
  else
    (Value.nil, false)

/-- The call `GetAll` returns all stored values for the request as a fresh map; the nil
map for an id that is not registered. -/
def GetAll {α : Type} (s : Store α) (idx : String) : Bag α :=
  let r := dataIndexOk s.data idx
  if r.2 then some (rangeCopy r.1) else none

/-- The call `GetAllOk` returns all stored values for the request as a fresh map and
whether the request was registered. -/
def GetAllOk {α : Type} (s : Store α) (idx : String) : Bag α × Bool :=
  let r := dataIndexOk s.data idx
  (some (rangeCopy r.1), r.2)

/-- The call `Delete` removes a value stored for a given key in a given request. -/
def Delete {α : Type} (s : Store α) (idx key : String) : Store α :=
  -- if data[idx] != nil { delete(data[idx], key) }
  match (dataIndexOk s.data idx).1 with
  | some ctx => ⟨s.data.insert idx (Bag.delete (some ctx) key)⟩
  | none => s

/-- The call `clear` is `Clear` without the lock: `delete(data, idx)`. -/
def clear {α : Type} (s : Store α) (idx : String) : Store α :=
  ⟨s.data.erase idx⟩

/-- The call `Clear` removes all values stored for a given request. -/
def Clear {α : Type} (s : Store α) (idx : String) : Store α :=
  clear s idx

/-- A mutating call of the package. -/
inductive Op (α : Type) where
  | set (idx key : String) (val : Value α) : Op α
  | delete (idx key : String) : Op α
  | clear (idx : String) : Op α
deriving DecidableEq

/-- Performs one mutating call; `none` if it panics. -/
def Op.apply {α : Type} (op : Op α) (s : Store α) : Option (Store α) :=
  match op with
  | Op.set idx key val => Set s idx key val
  | Op.delete idx key => some (Delete s idx key)
  | Op.clear idx => some (Clear s idx)

/-- Performs a sequence of mutating calls from left to right. -/
def run {α : Type} (ops : List (Op α)) (s : Store α) : Option (Store α) :=
  match ops with
  | [] => some s
  | op :: rest =>
    match op.apply s with
    | none => none
    | some s1 => run rest s1

/-- The contents read through `data[idx]`: empty when the id is absent or
bound to the nil map. -/
def contents {α : Type} (d : Finmap (fun _ : String => Bag α)) (idx : String) : GoMap α :=
  match d.lookup idx with
  | some (some c) => c
  | _ => ∅

/-- The sequence of calls contains a `Set` on `id` that no later `Clear(id)`
follows. -/
def SetSinceClear {α : Type} (id : String) (ops : List (Op α)) : Prop :=
  ∃ pre post k v, ops = pre ++ Op.set id k v :: post ∧ Op.clear id ∉ post

/-! ## Reference semantics

The inner maps of `data` are Go references: a map returned to a caller and a
map held in `data` may or may not be the same object.  The definitions below
embed the same operations over an explicit heap of map objects, so that
sharing between the store and its callers can be stated. -/

namespace Heap

/-- A value of Go type `map[string]interface{}` as Go holds it: nil, or the
address of an allocated map object. -/
abbrev Ref := Option Nat

/-- The package state with reference semantics: the allocated inner-map
objects (the address of an object is its position) and the variable `data`,
whose elements are references to them. -/
structure State (α : Type) where
  heap : List (GoMap α)
  data : Finmap (fun _ : String => Ref)
deriving DecidableEq

/-- The initial state: `data` is an allocated empty map and no inner map has
been allocated. -/
def State.empty {α : Type} : State α := ⟨[], ∅⟩

/-- The contents behind a reference; the nil map reads as empty. -/
def deref {α : Type} (heap : List (GoMap α)) (m : Ref) : GoMap α :=
  match m with
  | none => ∅
  | some a => (heap[a]?).getD ∅

/-- The call `make(map[string]interface{})`: allocates a fresh empty map object. -/
def make {α : Type} (s : State α) : Ref × State α :=
  (some s.heap.length, ⟨s.heap ++ [∅], s.data⟩)

/-- The comma-ok index `v, ok := data[idx]` on the outer map. -/
def dataIndexOk (d : Finmap (fun _ : String => Ref)) (idx : String) : Ref × Bool :=
  match d.lookup idx with
  | some r => (r, true)
  | none => (none, false)

/-- The comma-ok index `v, ok := m[key]` through a reference. -/
def index {α : Type} (s : State α) (m : Ref) (key : String) : Value α × Bool :=
  match (deref s.heap m).lookup key with
  | some v => (v, true)
  | none => (Value.nil, false)

/-- The assignment `m[key] = val` through a reference: it updates the object
in place, so every holder of the reference sees it; `none` is the panic on a
nil map. -/
def assign {α : Type} (s : State α) (m : Ref) (key : String) (val : Value α) :
    Option (State α) :=
  match m with
  | none => none
  | some a => some ⟨s.heap.set a ((deref s.heap (some a)).insert key val), s.data⟩

/-- The builtin `delete(m, key)` through a reference, in place. -/
def delete {α : Type} (s : State α) (m : Ref) (key : String) : State α :=
  match m with
  | none => s
  | some a => ⟨s.heap.set a ((deref s.heap (some a)).erase key), s.data⟩

/-- The statements `result := make(..., len(context)); for k, v := range
context { result[k] = v }`: a fresh object is allocated and filled with the
entries of `context`. -/
def rangeCopy {α : Type} (s : State α) (context : Ref) : Ref × State α :=
  (some s.heap.length,
    ⟨s.heap ++ [Context.rangeCopy (context.map (fun a => deref s.heap (some a)))], s.data⟩)

/-- The call `Set` with reference semantics. -/
def Set {α : Type} (s : State α) (idx key : String) (val : Value α) : Option (State α) :=
  -- if data[idx] == nil { data[idx] = make(map[string]interface{}) }
  let s1 : State α :=
    match (dataIndexOk s.data idx).1 with
    | none => ⟨(make s).2.heap, (make s).2.data.insert idx (make s).1⟩
    | some _ => s
  -- data[idx][key] = val
  assign s1 (dataIndexOk s1.data idx).1 key val

/-- The call `Get` with reference semantics. -/
def Get {α : Type} (s : State α) (idx key : String) : Value α :=
  match (dataIndexOk s.data idx).1 with
  | some ctx =>
    let r := index s (some ctx) key
    if r.2 then r.1 else Value.nil
  | none => Value.nil

/-- The call `GetOk` with reference semantics. -/
def GetOk {α : Type} (s : State α) (idx key : String) : Value α × Bool :=
  if (dataIndexOk s.data idx).2 then
    index s (dataIndexOk s.data idx).1 key
  else
    (Value.nil, false)

/-- The call `GetAll` with reference semantics: the returned reference and the state
after the allocation of the copy. -/
def GetAll {α : Type} (s : State α) (idx : String) : Ref × State α :=
  let r := dataIndexOk s.data idx
  if r.2 then rangeCopy s r.1 else (none, s)

/-- The call `GetAllOk` with reference semantics. -/
def GetAllOk {α : Type} (s : State α) (idx : String) : (Ref × Bool) × State α :=
  let r := dataIndexOk s.data idx
  (((rangeCopy s r.1).1, r.2), (rangeCopy s r.1).2)

/-- The call `Delete` with reference semantics. -/
def Delete {α : Type} (s : State α) (idx key : String) : State α :=
  match (dataIndexOk s.data idx).1 with
  | some ctx => delete s (some ctx) key
  | none => s

/-- The call `Clear` with reference semantics: `delete(data, idx)`; the object stays
allocated for whoever still holds a reference to it. -/
def Clear {α : Type} (s : State α) (idx : String) : State α :=
  ⟨s.heap, s.data.erase idx⟩

/-- Every reference stored in `data` points to an allocated object.  Go has no
dangling map references, so this singles out the states that exist at all; it
holds initially and is kept by every operation. -/
def WF {α : Type} (s : State α) : Prop :=
  ∀ idx a, s.data.lookup idx = some (some a) → a < s.heap.length

/-- No two ids of `data` are bound to the same map object. -/
def NoShare {α : Type} (s : State α) : Prop :=
  ∀ i j a, s.data.lookup i = some (some a) → s.data.lookup j = some (some a) → i = j

/-- What `data[idx]` holds when references are read through: absent, the nil
map, or the contents of the object. -/
def view {α : Type} (s : State α) (idx : String) : Option (Bag α) :=
  (s.data.lookup idx).map (fun r => r.map (fun a => deref s.heap (some a)))

/-- The value-semantics store `p` describes the reference-semantics state `s`. -/
def Abs {α : Type} (s : State α) (p : Store α) : Prop :=
  ∀ idx, p.data.lookup idx = view s idx

end Heap

/-! ## The lock

The operations once more, statement by statement with the calls on `mutex`,
over a state that also holds the lock, what `fmt.Printf` has written, and a
record of the lock events.  The bodies are the operations defined above.  A
call runs alone here: a lock that is not available is never released by
anyone else.

`PrintData` and `PrintAll` hand every stored value to `fmt.Printf` under `%v`,
which runs the `String`, `Error` or `Format` method of the value while the
read lock is held, and then write the line to standard output.  Such a method
is code of the caller: it may return a text, never return, or call back into
this package.  It is embedded as a `Script`. -/

namespace Locked

/-- How a call can fail to return: a run-time panic, a wait that never ends
(for the lock, or for standard output), or caller code that never returns. -/
inductive Fault where
  | panic : Fault
  | blocked : Fault
  | diverges : Fault
deriving DecidableEq, Repr

/-- The state of a `sync.RWMutex`: whether a writer holds it and how many
readers hold it. -/
structure RWMutex where
  writer : Bool
  readers : Nat
deriving DecidableEq, Repr

/-- The zero value `var mutex sync.RWMutex`: an unlocked mutex. -/
def RWMutex.free : RWMutex := ⟨false, 0⟩

/-- What the record of a call notes: the four calls on `mutex`, and the end
of a `range` loop that copies a bag, with the map it has filled. -/
inductive Event (α : Type) where
  | lock : Event α
  | unlock : Event α
  | rlock : Event α
  | runlock : Event α
  | copied (result : GoMap α) : Event α
deriving DecidableEq

/-- The package state with its lock: `mutex`, `data`, the lines written by
`fmt.Printf` so far, and the record of events. -/
structure World (α : Type) where
  mutex : RWMutex
  store : Store α
  out : List String
  trace : List (Event α)
deriving DecidableEq

/-- The result of a call: what it returns, or why it does not return together
with the state in which it is stuck. -/
abbrev Outcome (α β : Type) := Except (Fault × World α) β

/-- The call `mutex.Lock()`: waits for ever if the lock is held. -/
def Lock {α : Type} (w : World α) : Outcome α (World α) :=
  if w.mutex.writer = true ∨ w.mutex.readers ≠ 0 then
    Except.error (Fault.blocked, w)
  else
    Except.ok { w with mutex := ⟨true, w.mutex.readers⟩, trace := w.trace ++ [Event.lock] }

/-- The call `mutex.Unlock()`: a fatal error if no writer holds the lock. -/
def Unlock {α : Type} (w : World α) : Outcome α (World α) :=
  if w.mutex.writer = true then
    Except.ok { w with mutex := ⟨false, w.mutex.readers⟩, trace := w.trace ++ [Event.unlock] }
  else
    Except.error (Fault.panic, w)

/-- The call `mutex.RLock()`: waits for ever if a writer holds the lock. -/
def RLock {α : Type} (w : World α) : Outcome α (World α) :=
  if w.mutex.writer = true then
    Except.error (Fault.blocked, w)
  else
    Except.ok { w with mutex := ⟨false, w.mutex.readers + 1⟩,
                       trace := w.trace ++ [Event.rlock] }

/-- The call `mutex.RUnlock()`: a fatal error if no reader holds the lock. -/
def RUnlock {α : Type} (w : World α) : Outcome α (World α) :=
  if w.mutex.readers = 0 then
    Except.error (Fault.panic, w)
  else
    Except.ok { w with mutex := ⟨w.mutex.writer, w.mutex.readers - 1⟩,
                       trace := w.trace ++ [Event.runlock] }

/-- The copy loop of `GetAll` and `GetAllOk`; when it is done the record notes
the map it has filled. -/
def copyBag {α : Type} (w : World α) (context : Bag α) : GoMap α × World α :=
  (rangeCopy context, { w with trace := w.trace ++ [Event.copied (rangeCopy context)] })

/-- The call `Set` with its lock. -/
def Set {α : Type} (w : World α) (idx key : String) (val : Value α) :
    Outcome α (World α) := do
  let w1 ← Lock w
  match Context.Set w1.store idx key val with
  | none => Except.error (Fault.panic, w1)
  | some s => Unlock { w1 with store := s }

/-- The call `Get` with its lock; each of the two exits unlocks. -/
def Get {α : Type} (w : World α) (idx key : String) : Outcome α (Value α × World α) := do
  let w1 ← RLock w
  match (dataIndexOk w1.store.data idx).1 with
  | some ctx =>
    let r := Bag.indexOk (some ctx) key
    let w2 ← RUnlock w1
    if r.2 then pure (r.1, w2) else pure (Value.nil, w2)
  | none =>
    let w2 ← RUnlock w1
    pure (Value.nil, w2)

/-- The call `GetOk` with its lock; each of the two exits unlocks. -/
def GetOk {α : Type} (w : World α) (idx key : String) :
    Outcome α ((Value α × Bool) × World α) := do
  let w1 ← RLock w
  if (dataIndexOk w1.store.data idx).2 then
    let r := Bag.indexOk (dataIndexOk w1.store.data idx).1 key
    let w2 ← RUnlock w1
    pure (r, w2)
  else
    let w2 ← RUnlock w1
    pure ((Value.nil, false), w2)

/-- The call `GetAll` with its lock; each of the two exits unlocks, the first
after the copy loop. -/
def GetAll {α : Type} (w : World α) (idx : String) : Outcome α (Bag α × World α) := do
  let w1 ← RLock w
  if (dataIndexOk w1.store.data idx).2 then
    let c := copyBag w1 (dataIndexOk w1.store.data idx).1
    let w2 ← RUnlock c.2
    pure (some c.1, w2)
  else
    let w2 ← RUnlock w1
    pure (none, w2)

/-- The call `GetAllOk` with its lock. -/
def GetAllOk {α : Type} (w : World α) (idx : String) :
    Outcome α ((Bag α × Bool) × World α) := do
  let w1 ← RLock w
  let c := copyBag w1 (dataIndexOk w1.store.data idx).1
  let w2 ← RUnlock c.2
  pure ((some c.1, (dataIndexOk w1.store.data idx).2), w2)

/-- The call `Delete` with its lock. -/
def Delete {α : Type} (w : World α) (idx key : String) : Outcome α (World α) := do
  let w1 ← Lock w
  Unlock { w1 with store := Context.Delete w1.store idx key }

/-- The call `Clear` with its lock: `mutex.Lock(); clear(idx); mutex.Unlock()`. -/
def Clear {α : Type} (w : World α) (idx : String) : Outcome α (World α) := do
  let w1 ← Lock w
  Unlock { w1 with store := Context.clear w1.store idx }

end Locked

/-! ## Auxiliary facts: value semantics -/

section Facts
variable {α : Type}

theorem foldl_insert_lookup (x : String) :
    ∀ (l : List (Sigma (fun _ : String => Value α))) (init : GoMap α), l.NodupKeys →
      (l.foldl (fun r e => r.insert e.1 e.2) init).lookup x =
        match l.dlookup x with
        | some v => some v
        | none => init.lookup x := by
  intro l
  induction l with
  | nil => intro init _; simp
  | cons e t ih =>
    intro init hnd
    rw [List.nodupKeys_cons] at hnd
    rw [List.foldl_cons, ih _ hnd.2]
    by_cases hx : e.1 = x
    · subst hx
      have hnone : t.dlookup e.1 = none := List.dlookup_eq_none.mpr hnd.1
      obtain ⟨k, v⟩ := e
      simp [hnone, List.dlookup_cons_eq, Finmap.lookup_insert]
    · obtain ⟨k, v⟩ := e
      have hx2 : x ≠ k := fun h => hx h.symm
      rw [List.dlookup_cons_ne _ _ hx2]
      cases t.dlookup x with
      | none => simp [Finmap.lookup_insert_of_ne _ hx2]
      | some w => rfl

theorem rangeCopy_some (c : GoMap α) : rangeCopy (some c) = c := by
  induction c using Finmap.induction_on with
  | H a =>
    apply Finmap.ext_lookup
    intro x
    unfold rangeCopy
    simp only
    rw [Finmap.liftOn_toFinmap, foldl_insert_lookup x _ _ a.nodupKeys, Finmap.lookup_toFinmap]
    show _ = a.entries.dlookup x
    cases a.entries.dlookup x <;> simp

theorem rangeCopy_none : rangeCopy (none : Bag α) = ∅ := rfl

theorem contents_insert_self (d : Finmap (fun _ : String => Bag α)) (idx : String) (c : GoMap α) :
    contents (d.insert idx (some c)) idx = c := by
  simp [contents, Finmap.lookup_insert]

theorem contents_insert_of_ne (d : Finmap (fun _ : String => Bag α)) {idx b : String}
    (h : b ≠ idx) (m : Bag α) : contents (d.insert idx m) b = contents d b := by
  simp [contents, Finmap.lookup_insert_of_ne _ h]

theorem contents_erase_self (d : Finmap (fun _ : String => Bag α)) (idx : String) :
    contents (d.erase idx) idx = ∅ := by
  simp [contents, Finmap.lookup_erase]

theorem contents_erase_of_ne (d : Finmap (fun _ : String => Bag α)) {idx b : String}
    (h : b ≠ idx) : contents (d.erase idx) b = contents d b := by
  simp [contents, Finmap.lookup_erase_ne h]

/-- Closed form of `Set`: it never panics, and rebinds `idx` to its former
contents extended by the new entry. -/
theorem Set_eq (s : Store α) (idx key : String) (val : Value α) :
    Set s idx key val =
      some ⟨s.data.insert idx (some ((contents s.data idx).insert key val))⟩ := by
  unfold Set dataIndexOk contents
  cases h : s.data.lookup idx with
  | none => simp [Bag.assign, Finmap.lookup_insert, Finmap.insert_insert]
  | some b =>
    cases b with
    | none => simp [Bag.assign, Finmap.lookup_insert, Finmap.insert_insert]
    | some c => simp [Bag.assign, h]

theorem GetOk_eq (s : Store α) (idx key : String) :
    GetOk s idx key = Bag.indexOk (some (contents s.data idx)) key := by
  unfold GetOk dataIndexOk contents
  cases h : s.data.lookup idx with
  | none => simp [Bag.indexOk]
  | some b =>
    cases b with
    | none => simp [Bag.indexOk]
    | some c => simp

theorem Get_eq (s : Store α) (idx key : String) :
    Get s idx key = (Bag.indexOk (some (contents s.data idx)) key).1 := by
  unfold Get dataIndexOk contents
  cases h : s.data.lookup idx with
  | none => simp [Bag.indexOk]
  | some b =>
    cases b with
    | none => simp [Bag.indexOk]
    | some c =>
      simp only [Bag.indexOk]
      cases c.lookup key <;> simp

theorem GetAllOk_eq (s : Store α) (idx : String) :
    GetAllOk s idx = (some (contents s.data idx), (s.data.lookup idx).isSome) := by
  unfold GetAllOk dataIndexOk contents
  cases h : s.data.lookup idx with
  | none => simp [rangeCopy_none]
  | some b =>
    cases b with
    | none => simp [rangeCopy_none]
    | some c => simp [rangeCopy_some]

theorem GetAll_eq (s : Store α) (idx : String) :
    GetAll s idx = if (s.data.lookup idx).isSome then some (contents s.data idx) else none := by
  unfold GetAll dataIndexOk contents
  cases h : s.data.lookup idx with
  | none => simp
  | some b =>
    cases b with
    | none => simp [rangeCopy_none]
    | some c => simp [rangeCopy_some]

theorem indexOk_insert_self (c : GoMap α) (key : String) (v : Value α) :
    Bag.indexOk (some (c.insert key v)) key = (v, true) := by
  simp [Bag.indexOk, Finmap.lookup_insert]

theorem indexOk_insert_of_ne (c : GoMap α) {key k : String} (h : k ≠ key) (v : Value α) :
    Bag.indexOk (some (c.insert key v)) k = Bag.indexOk (some c) k := by
  simp [Bag.indexOk, Finmap.lookup_insert_of_ne _ h]

theorem indexOk_erase_self (c : GoMap α) (key : String) :
    Bag.indexOk (some (c.erase key)) key = (Value.nil, false) := by
  simp [Bag.indexOk, Finmap.lookup_erase]

theorem indexOk_empty (key : String) :
    Bag.indexOk (some (∅ : GoMap α)) key = (Value.nil, false) := by
  simp [Bag.indexOk, Finmap.lookup_empty]

theorem indexOk_snd (c : GoMap α) (key : String) :
    (Bag.indexOk (some c) key).2 = (c.lookup key).isSome := by
  simp only [Bag.indexOk]
  cases c.lookup key <;> rfl

theorem indexOk_of_lookup_none {c : GoMap α} {key : String} (h : c.lookup key = none) :
    Bag.indexOk (some c) key = (Value.nil, false) := by
  simp [Bag.indexOk, h]

theorem lookup_none_of_indexOk {c : GoMap α} {key : String}
    (h : (Bag.indexOk (some c) key).2 = false) : c.lookup key = none := by
  rw [indexOk_snd] at h
  cases hc : c.lookup key with
  | none => rfl
  | some v => rw [hc] at h; cases h

theorem finmap_erase_of_lookup_none {β : Type} (m : Finmap (fun _ : String => β)) {key : String}
    (h : m.lookup key = none) : m.erase key = m := by
  apply Finmap.ext_lookup
  intro x
  by_cases hx : x = key
  · subst hx; rw [Finmap.lookup_erase, h]
  · exact Finmap.lookup_erase_ne hx

theorem finmap_erase_empty {β : Type} (key : String) :
    (∅ : Finmap (fun _ : String => β)).erase key = ∅ :=
  finmap_erase_of_lookup_none _ (Finmap.lookup_empty key)

theorem finmap_insert_of_lookup {β : Type} (m : Finmap (fun _ : String => β)) {key : String}
    {v : β} (h : m.lookup key = some v) : m.insert key v = m := by
  apply Finmap.ext_lookup
  intro x
  by_cases hx : x = key
  · subst hx; rw [Finmap.lookup_insert, h]
  · exact Finmap.lookup_insert_of_ne _ hx

/-- Closed form of `Delete` on the contents read through each id. -/
theorem contents_Delete (s : Store α) (idx key b : String) :
    contents (Delete s idx key).data b =
      if b = idx then (contents s.data idx).erase key else contents s.data b := by
  unfold Delete dataIndexOk
  cases h : s.data.lookup idx with
  | none =>
    by_cases hb : b = idx
    · subst hb; simp [contents, h, finmap_erase_empty]
    · simp [hb]
  | some m =>
    cases m with
    | none =>
      by_cases hb : b = idx
      · subst hb; simp [contents, h, finmap_erase_empty]
      · simp [hb]
    | some c =>
      by_cases hb : b = idx
      · subst hb; simp [contents, h, Bag.delete, Finmap.lookup_insert]
      · simp [hb, contents, Finmap.lookup_insert_of_ne _ hb]

/-- The call `Delete` neither registers nor unregisters an id. -/
theorem lookup_Delete_isSome (s : Store α) (idx key b : String) :
    ((Delete s idx key).data.lookup b).isSome = (s.data.lookup b).isSome := by
  unfold Delete dataIndexOk
  cases h : s.data.lookup idx with
  | none => simp
  | some m =>
    cases m with
    | none => simp
    | some c =>
      by_cases hb : b = idx
      · subst hb; simp [h, Finmap.lookup_insert]
      · simp [Finmap.lookup_insert_of_ne _ hb]

theorem indexOk_erase_of_ne (c : GoMap α) {key k : String} (h : k ≠ key) :
    Bag.indexOk (some (c.erase key)) k = Bag.indexOk (some c) k := by
  simp [Bag.indexOk, Finmap.lookup_erase_ne h]

/-- One mutating call other than `Set(id, k, _)` returns and keeps `k` absent
from the bag of `id`. -/
theorem apply_keeps_absent (id k : String) (op : Op α) (s : Store α)
    (hop : ∀ v, op ≠ Op.set id k v) (h : GetOk s id k = (Value.nil, false)) :
    ∃ s1, op.apply s = some s1 ∧ GetOk s1 id k = (Value.nil, false) := by
  rw [GetOk_eq] at h
  cases op with
  | set idx key val =>
    refine ⟨_, Set_eq s idx key val, ?_⟩
    rw [GetOk_eq]
    by_cases hi : id = idx
    · subst hi
      have hk : k ≠ key := by
        intro e
        subst e
        exact hop val rfl
      rw [contents_insert_self, indexOk_insert_of_ne _ hk, h]
    · rw [contents_insert_of_ne _ hi, h]
  | delete idx key =>
    refine ⟨_, rfl, ?_⟩
    rw [GetOk_eq, contents_Delete]
    by_cases hi : id = idx
    · subst hi
      rw [if_pos rfl]
      by_cases hk : k = key
      · subst hk; exact indexOk_erase_self _ _
      · rw [indexOk_erase_of_ne _ hk, h]
    · rw [if_neg hi, h]
  | clear idx =>
    refine ⟨_, rfl, ?_⟩
    rw [GetOk_eq]
    show Bag.indexOk (some (contents (s.data.erase idx) id)) k = _
    by_cases hi : id = idx
    · subst hi
      rw [contents_erase_self, indexOk_empty]
    · rw [contents_erase_of_ne _ hi, h]

/-- A sequence of mutating calls without `Set(id, k, _)` returns and keeps `k`
absent from the bag of `id`. -/
theorem run_keeps_absent (id k : String) :
    ∀ (ops : List (Op α)) (s : Store α), (∀ op ∈ ops, ∀ v, op ≠ Op.set id k v) →
      GetOk s id k = (Value.nil, false) →
      ∃ s1, run ops s = some s1 ∧ GetOk s1 id k = (Value.nil, false) := by
  intro ops
  induction ops with
  | nil => intro s _ h; exact ⟨s, rfl, h⟩
  | cons op rest ih =>
    intro s hops h
    obtain ⟨s1, h1, h2⟩ :=
      apply_keeps_absent id k op s (hops op (List.mem_cons_self _ _)) h
    obtain ⟨s2, h3, h4⟩ := ih s1 (fun o ho => hops o (List.mem_cons_of_mem _ ho)) h2
    refine ⟨s2, ?_, h4⟩
    simp only [run, h1]
    exact h3

theorem GetOk_empty (id k : String) :
    GetOk (Store.empty : Store α) id k = (Value.nil, false) := by
  rw [GetOk_eq]
  simp [Store.empty, contents, indexOk_empty]

theorem GetAllOk_snd (s : Store α) (idx : String) :
    (GetAllOk s idx).2 = (s.data.lookup idx).isSome := by
  rw [GetAllOk_eq]

theorem lookup_none_of_not_found {s : Store α} {idx : String}
    (h : (GetAllOk s idx).2 = false) : s.data.lookup idx = none := by
  rw [GetAllOk_snd] at h
  cases hl : s.data.lookup idx with
  | none => rfl
  | some b => rw [hl] at h; cases h

/-- The call `Delete` of a key that `GetOk` does not find leaves the store as it is. -/
theorem Delete_of_not_found {s : Store α} {idx key : String}
    (h : (GetOk s idx key).2 = false) : Delete s idx key = s := by
  unfold Delete dataIndexOk
  cases hl : s.data.lookup idx with
  | none => rfl
  | some m =>
    cases m with
    | none => rfl
    | some c =>
      have hc : contents s.data idx = c := by simp [contents, hl]
      rw [GetOk_eq, hc] at h
      have hk : c.lookup key = none := lookup_none_of_indexOk h
      show Store.mk (s.data.insert idx (some (c.erase key))) = s
      rw [finmap_erase_of_lookup_none c hk, finmap_insert_of_lookup s.data hl]

/-! ## Auxiliary facts: reference semantics and its correspondence with value semantics -/

namespace Heap

theorem index_of_lookup {t : State α} {n : Nat} {c : GoMap α} {k : String} {v : Value α}
    (hn : t.heap[n]? = some c) (hc : c.lookup k = some v) :
    index t (some n) k = (v, true) := by
  simp [index, deref, hn, hc]

theorem deref_set_of_ne (h : List (GoMap α)) {a n : Nat} (hne : a ≠ n) (x : GoMap α) :
    deref (h.set a x) (some n) = deref h (some n) := by
  simp [deref, List.getElem?_set_ne hne]

/-- The call `Set` on an id bound to an allocated object updates that object in place. -/
theorem Set_of_bound (s : State α) {idx : String} {a : Nat}
    (hl : s.data.lookup idx = some (some a)) (key : String) (val : Value α) :
    Set s idx key val =
      some ⟨s.heap.set a ((deref s.heap (some a)).insert key val), s.data⟩ := by
  simp [Set, dataIndexOk, hl, assign]

/-- The call `Set` on an id that is absent, or bound to the nil map, allocates a fresh
object and binds the id to it. -/
theorem Set_of_nil (s : State α) {idx : String}
    (hl : (dataIndexOk s.data idx).1 = none) (key : String) (val : Value α) :
    Set s idx key val =
      some ⟨s.heap ++ [(∅ : GoMap α).insert key val],
        s.data.insert idx (some s.heap.length)⟩ := by
  simp only [Set, hl, make]
  simp [assign, dataIndexOk, Finmap.lookup_insert, deref]

/-- After `Set(idx, key, val)` on a well-formed state, `idx` is bound to an
allocated object that holds `val` under `key`. -/
theorem Set_spec (s : State α) (hwf : WF s) (idx key : String) (val : Value α) :
    ∃ s1 a c, Set s idx key val = some s1 ∧ s1.data.lookup idx = some (some a) ∧
      s1.heap[a]? = some c ∧ c.lookup key = some val := by
  cases hr : (dataIndexOk s.data idx).1 with
  | none =>
    refine ⟨_, s.heap.length, (∅ : GoMap α).insert key val, Set_of_nil s hr key val,
      Finmap.lookup_insert _, ?_, Finmap.lookup_insert _⟩
    simp
  | some a =>
    have hl : s.data.lookup idx = some (some a) := by
      unfold dataIndexOk at hr
      cases h : s.data.lookup idx with
      | none => rw [h] at hr; cases hr
      | some r => rw [h] at hr; simp at hr; rw [hr]
    have ha : a < s.heap.length := hwf idx a hl
    refine ⟨_, a, (deref s.heap (some a)).insert key val, Set_of_bound s hl key val, hl, ?_,
      Finmap.lookup_insert _⟩
    simp [ha]

theorem GetAll_of_bound (s : State α) {idx : String} {a : Nat}
    (hl : s.data.lookup idx = some (some a)) :
    GetAll s idx = (some s.heap.length, ⟨s.heap ++ [deref s.heap (some a)], s.data⟩) := by
  simp [GetAll, dataIndexOk, hl, rangeCopy, Context.rangeCopy_some]

theorem GetAllOk_of_bound (s : State α) {idx : String} {a : Nat}
    (hl : s.data.lookup idx = some (some a)) :
    GetAllOk s idx =
      ((some s.heap.length, true), ⟨s.heap ++ [deref s.heap (some a)], s.data⟩) := by
  simp [GetAllOk, dataIndexOk, hl, rangeCopy, Context.rangeCopy_some]

theorem GetOk_of_bound (t : State α) {idx : String} {a : Nat}
    (hl : t.data.lookup idx = some (some a)) (k : String) :
    GetOk t idx k = index t (some a) k := by
  simp [GetOk, dataIndexOk, hl]

/-- A map object at an address other than the one `id` is bound to keeps its
entry for `k` across `Set(id, k, _)`, `Delete(id, k)` and `Clear(id)`, and an
assignment into it is not seen by `GetOk(id, k)`. -/
theorem held_map_separate (t : State α) (id k : String) (a n : Nat) (c : GoMap α)
    (v : Value α) (hd : t.data.lookup id = some (some a)) (han : a ≠ n)
    (hn : t.heap[n]? = some c) (hc : c.lookup k = some v)
    (k2 : String) (v2 w : Value α) :
    index t (some n) k = (v, true) ∧
    (∃ s3, Set t id k v2 = some s3 ∧ index s3 (some n) k = (v, true)) ∧
    index (Delete t id k) (some n) k = (v, true) ∧
    index (Clear t id) (some n) k = (v, true) ∧
    (∃ s3, assign t (some n) k2 w = some s3 ∧ GetOk s3 id k = GetOk t id k) := by
  have h0 : index t (some n) k = (v, true) := index_of_lookup hn hc
  refine ⟨h0, ⟨_, Set_of_bound t hd k v2, ?_⟩, ?_, ?_, ⟨_, rfl, ?_⟩⟩
  · rw [← h0]
    simp only [index, deref_set_of_ne _ han]
  · rw [← h0]
    simp only [Delete, dataIndexOk, hd, delete, index, deref_set_of_ne _ han]
  · rw [← h0]
    rfl
  · have hd2 : (State.mk (t.heap.set n ((deref t.heap (some n)).insert k2 w)) t.data).data.lookup id
        = some (some a) := hd
    rw [GetOk_of_bound _ hd2, GetOk_of_bound t hd]
    simp only [index, deref_set_of_ne _ (Ne.symm han)]

theorem WF_empty : WF (State.empty : State α) := by
  intro idx a h
  simp [State.empty] at h

theorem NoShare_empty : NoShare (State.empty : State α) := by
  intro i j a h
  simp [State.empty] at h

theorem Abs_empty : Abs (State.empty : State α) Store.empty := by
  intro idx
  simp [State.empty, Store.empty, view]

theorem lookup_of_fst_some {d : Finmap (fun _ : String => Ref)} {idx : String} {a : Nat}
    (hr : (dataIndexOk d idx).1 = some a) : d.lookup idx = some (some a) := by
  unfold dataIndexOk at hr
  cases h : d.lookup idx with
  | none => rw [h] at hr; cases hr
  | some r => rw [h] at hr; simp at hr; rw [hr]

theorem view_of_fst_none {s : State α} {idx : String}
    (hr : (dataIndexOk s.data idx).1 = none) :
    view s idx = none ∨ view s idx = some none := by
  unfold dataIndexOk at hr
  unfold view
  cases h : s.data.lookup idx with
  | none => left; rfl
  | some r =>
    rw [h] at hr
    simp at hr
    subst hr
    right; rfl

/-- Reading through an id gives the same view after a change of the heap that
keeps the objects `data` points to. -/
theorem view_congr {s t : State α} {b : String} (hd : t.data.lookup b = s.data.lookup b)
    (hh : ∀ a, s.data.lookup b = some (some a) → deref t.heap (some a) = deref s.heap (some a)) :
    view t b = view s b := by
  unfold view
  rw [hd]
  cases h : s.data.lookup b with
  | none => rfl
  | some r =>
    cases r with
    | none => rfl
    | some a => simp [hh a h]

theorem deref_append_of_lt (h : List (GoMap α)) (x : GoMap α) {a : Nat} (ha : a < h.length) :
    deref (h ++ [x]) (some a) = deref h (some a) := by
  simp [deref, List.getElem?_append_left ha]

theorem deref_set_self (h : List (GoMap α)) (x : GoMap α) {a : Nat} (ha : a < h.length) :
    deref (h.set a x) (some a) = x := by
  simp [deref, ha]

theorem contents_of_abs {s : State α} {p : Store α} (habs : Abs s p) (idx : String) :
    contents p.data idx = deref s.heap ((s.data.lookup idx).getD none) := by
  unfold contents
  rw [habs idx]
  unfold view
  cases h : s.data.lookup idx with
  | none => rfl
  | some r =>
    cases r with
    | none => rfl
    | some a => rfl

/-- The call `Set` on references is `Set` on values: from a well-formed state without
sharing both return, the results correspond, and the invariants are kept. -/
theorem Set_sim (s : State α) (p : Store α) (hwf : WF s) (hns : NoShare s) (habs : Abs s p)
    (idx key : String) (val : Value α) :
    ∃ s1 p1, Set s idx key val = some s1 ∧ Context.Set p idx key val = some p1 ∧
      Abs s1 p1 ∧ WF s1 ∧ NoShare s1 := by
  cases hr : (dataIndexOk s.data idx).1 with
  | none =>
    have hc : contents p.data idx = ∅ := by
      unfold contents
      rw [habs idx]
      rcases view_of_fst_none hr with h | h <;> rw [h]
    refine ⟨_, _, Set_of_nil s hr key val, Context.Set_eq p idx key val, ?_, ?_, ?_⟩
    · intro b
      by_cases hb : b = idx
      · subst hb
        simp [hc, view, Finmap.lookup_insert, deref]
      · show (p.data.insert idx _).lookup b = _
        rw [Finmap.lookup_insert_of_ne _ hb, habs b]
        symm
        apply view_congr
        · exact Finmap.lookup_insert_of_ne _ hb
        · intro a ha
          exact deref_append_of_lt _ _ (hwf b a ha)
    · intro b a ha
      simp only [List.length_append, List.length_singleton]
      by_cases hb : b = idx
      · subst hb
        rw [Finmap.lookup_insert] at ha
        cases ha
        exact Nat.lt_succ_self _
      · rw [Finmap.lookup_insert_of_ne _ hb] at ha
        exact Nat.lt_succ_of_lt (hwf b a ha)
    · intro i j a hi hj
      by_cases h1 : i = idx
      · by_cases h2 : j = idx
        · rw [h1, h2]
        · subst h1
          rw [Finmap.lookup_insert] at hi
          cases hi
          rw [Finmap.lookup_insert_of_ne _ h2] at hj
          exact absurd (hwf j _ hj) (Nat.lt_irrefl _)
      · by_cases h2 : j = idx
        · subst h2
          rw [Finmap.lookup_insert] at hj
          cases hj
          rw [Finmap.lookup_insert_of_ne _ h1] at hi
          exact absurd (hwf i _ hi) (Nat.lt_irrefl _)
        · rw [Finmap.lookup_insert_of_ne _ h1] at hi
          rw [Finmap.lookup_insert_of_ne _ h2] at hj
          exact hns i j a hi hj
  | some a =>
    have hl : s.data.lookup idx = some (some a) := lookup_of_fst_some hr
    have ha : a < s.heap.length := hwf idx a hl
    have hc : contents p.data idx = deref s.heap (some a) := by
      rw [contents_of_abs habs, hl]; rfl
    refine ⟨_, _, Set_of_bound s hl key val, Context.Set_eq p idx key val, ?_, ?_, ?_⟩
    · intro b
      by_cases hb : b = idx
      · subst hb
        show (p.data.insert b _).lookup b = _
        rw [Finmap.lookup_insert, hc]
        simp [view, hl, deref_set_self _ _ ha]
      · show (p.data.insert idx _).lookup b = _
        rw [Finmap.lookup_insert_of_ne _ hb, habs b]
        symm
        refine view_congr (s := s) rfl ?_
        intro a2 ha2
        have hne : a ≠ a2 := fun e => hb (hns b idx a2 ha2 (e ▸ hl))
        exact deref_set_of_ne _ hne _
    · intro b a2 ha2
      simp only [List.length_set]
      exact hwf b a2 ha2
    · exact hns

theorem deref_append_self (h : List (GoMap α)) (x : GoMap α) :
    deref (h ++ [x]) (some h.length) = x := by
  simp [deref]

/-- Allocating one more object keeps the view, the correspondence and the
invariants. -/
theorem alloc_keeps (s : State α) (p : Store α) (hwf : WF s) (hns : NoShare s)
    (habs : Abs s p) (x : GoMap α) :
    Abs ⟨s.heap ++ [x], s.data⟩ p ∧ WF (State.mk (s.heap ++ [x]) s.data) ∧
      NoShare (State.mk (s.heap ++ [x]) s.data) := by
  refine ⟨?_, ?_, hns⟩
  · intro b
    rw [habs b]
    symm
    refine view_congr (s := s) rfl ?_
    intro a ha
    exact deref_append_of_lt _ _ (hwf b a ha)
  · intro b a ha
    simp only [List.length_append, List.length_singleton]
    exact Nat.lt_succ_of_lt (hwf b a ha)

/-- The call `Delete` on references is `Delete` on values. -/
theorem Delete_sim (s : State α) (p : Store α) (hwf : WF s) (hns : NoShare s) (habs : Abs s p)
    (idx key : String) :
    Abs (Delete s idx key) (Context.Delete p idx key) ∧ WF (Delete s idx key) ∧
      NoShare (Delete s idx key) := by
  cases hr : (dataIndexOk s.data idx).1 with
  | none =>
    have hs : Delete s idx key = s := by simp [Delete, hr]
    have hp : Context.Delete p idx key = p := by
      unfold Context.Delete Context.dataIndexOk
      rw [habs idx]
      rcases view_of_fst_none hr with h | h <;> rw [h]
    rw [hs, hp]
    exact ⟨habs, hwf, hns⟩
  | some a =>
    have hl : s.data.lookup idx = some (some a) := lookup_of_fst_some hr
    have ha : a < s.heap.length := hwf idx a hl
    have hpl : p.data.lookup idx = some (some (deref s.heap (some a))) := by
      rw [habs idx]; simp [view, hl]
    have hs : Delete s idx key =
        ⟨s.heap.set a ((deref s.heap (some a)).erase key), s.data⟩ := by
      simp [Delete, hr, delete]
    have hp : Context.Delete p idx key =
        ⟨p.data.insert idx (some ((deref s.heap (some a)).erase key))⟩ := by
      simp [Context.Delete, Context.dataIndexOk, hpl, Bag.delete]
    rw [hs, hp]
    refine ⟨?_, ?_, hns⟩
    · intro b
      by_cases hb : b = idx
      · subst hb
        show (p.data.insert b _).lookup b = _
        rw [Finmap.lookup_insert]
        simp [view, hl, deref_set_self _ _ ha]
      · show (p.data.insert idx _).lookup b = _
        rw [Finmap.lookup_insert_of_ne _ hb, habs b]
        symm
        refine view_congr (s := s) rfl ?_
        intro a2 ha2
        have hne : a ≠ a2 := fun e => hb (hns b idx a2 ha2 (e ▸ hl))
        exact deref_set_of_ne _ hne _
    · intro b a2 ha2
      simp only [List.length_set]
      exact hwf b a2 ha2

/-- The call `Clear` on references is `Clear` on values. -/
theorem Clear_sim (s : State α) (p : Store α) (hwf : WF s) (hns : NoShare s) (habs : Abs s p)
    (idx : String) :
    Abs (Clear s idx) (Context.Clear p idx) ∧ WF (Clear s idx) ∧ NoShare (Clear s idx) := by
  have hlk : ∀ b a, (s.data.erase idx).lookup b = some (some a) →
      s.data.lookup b = some (some a) := by
    intro b a h
    by_cases hb : b = idx
    · subst hb; rw [Finmap.lookup_erase] at h; cases h
    · rwa [Finmap.lookup_erase_ne hb] at h
  refine ⟨?_, ?_, ?_⟩
  · intro b
    show (p.data.erase idx).lookup b = view (State.mk s.heap (s.data.erase idx)) b
    by_cases hb : b = idx
    · subst hb
      simp [view, Finmap.lookup_erase]
    · rw [Finmap.lookup_erase_ne hb, habs b]
      simp [view, Finmap.lookup_erase_ne hb]
  · intro b a h
    exact hwf b a (hlk b a h)
  · intro i j a hi hj
    exact hns i j a (hlk i a hi) (hlk j a hj)

/-- The call `GetOk` on references returns what `GetOk` on values returns. -/
theorem GetOk_sim (s : State α) (p : Store α) (habs : Abs s p) (idx key : String) :
    GetOk s idx key = Context.GetOk p idx key := by
  rw [Context.GetOk_eq, contents_of_abs habs]
  unfold GetOk dataIndexOk
  cases h : s.data.lookup idx with
  | none => simp [Bag.indexOk, deref]
  | some r => simp [index, Bag.indexOk]

/-- The call `Get` on references returns what `Get` on values returns. -/
theorem Get_sim (s : State α) (p : Store α) (habs : Abs s p) (idx key : String) :
    Get s idx key = Context.Get p idx key := by
  rw [Context.Get_eq, contents_of_abs habs]
  unfold Get dataIndexOk
  cases h : s.data.lookup idx with
  | none => simp [Bag.indexOk, deref]
  | some r =>
    cases r with
    | none => simp [Bag.indexOk, deref]
    | some a =>
      simp only [index, Bag.indexOk, Option.getD_some]
      cases (deref s.heap (some a)).lookup key <;> simp

/-- The call `GetAll` on references returns a reference to an object holding what
`GetAll` on values returns, and only allocates. -/
theorem GetAll_sim (s : State α) (p : Store α) (hwf : WF s) (hns : NoShare s) (habs : Abs s p)
    (idx : String) :
    (GetAll s idx).1.map (fun a => deref (GetAll s idx).2.heap (some a)) = Context.GetAll p idx ∧
      Abs (GetAll s idx).2 p ∧ WF (GetAll s idx).2 ∧ NoShare (GetAll s idx).2 := by
  unfold GetAll Context.GetAll Context.dataIndexOk dataIndexOk
  rw [habs idx]
  unfold view
  cases h : s.data.lookup idx with
  | none => exact ⟨rfl, habs, hwf, hns⟩
  | some r =>
    refine ⟨?_, alloc_keeps s p hwf hns habs _⟩
    simp [rangeCopy, deref_append_self]

/-- The call `GetAllOk` on references returns a reference to an object holding what
`GetAllOk` on values returns, with the same flag, and only allocates. -/
theorem GetAllOk_sim (s : State α) (p : Store α) (hwf : WF s) (hns : NoShare s)
    (habs : Abs s p) (idx : String) :
    ((GetAllOk s idx).1.1.map (fun a => deref (GetAllOk s idx).2.heap (some a)),
        (GetAllOk s idx).1.2) = Context.GetAllOk p idx ∧
      Abs (GetAllOk s idx).2 p ∧ WF (GetAllOk s idx).2 ∧ NoShare (GetAllOk s idx).2 := by
  unfold GetAllOk Context.GetAllOk Context.dataIndexOk dataIndexOk
  rw [habs idx]
  unfold view
  cases h : s.data.lookup idx with
  | none =>
    refine ⟨?_, alloc_keeps s p hwf hns habs _⟩
    simp [rangeCopy, deref_append_self]
  | some r =>
    refine ⟨?_, alloc_keeps s p hwf hns habs _⟩
    simp [rangeCopy, deref_append_self]

end Heap

/-! ## Auxiliary facts: call sequences and the lock -/

theorem Clear_data (s : Store α) (idx : String) : (Clear s idx).data = s.data.erase idx := rfl

theorem GetAll_isSome (s : Store α) (idx : String) :
    (GetAll s idx).isSome = (GetAllOk s idx).2 := by
  rw [GetAll_eq, GetAllOk_eq]
  cases (s.data.lookup idx).isSome <;> rfl

theorem run_snoc (ops : List (Op α)) (op : Op α) :
    ∀ s : Store α, run (ops ++ [op]) s = (run ops s).bind op.apply := by
  induction ops with
  | nil =>
    intro s
    simp only [List.nil_append, run, Option.some_bind]
    cases op.apply s <;> rfl
  | cons o rest ih =>
    intro s
    simp only [List.cons_append, run]
    cases o.apply s with
    | none => rfl
    | some s1 => exact ih s1

/-- Every sequence of mutating calls returns, from every store. -/
theorem run_total (ops : List (Op α)) : ∀ s : Store α, ∃ s1, run ops s = some s1 := by
  induction ops with
  | nil => intro s; exact ⟨s, rfl⟩
  | cons o rest ih =>
    intro s
    have h : ∃ s1, o.apply s = some s1 := by
      cases o with
      | set idx key val => exact ⟨_, Set_eq s idx key val⟩
      | delete idx key => exact ⟨_, rfl⟩
      | clear idx => exact ⟨_, rfl⟩
    obtain ⟨s1, h1⟩ := h
    obtain ⟨s2, h2⟩ := ih s1
    exact ⟨s2, by simp only [run, h1]; exact h2⟩

/-- The effect of one mutating call on whether `id` is registered. -/
theorem found_apply (id : String) (op : Op α) (s s1 : Store α) (h : op.apply s = some s1) :
    (GetAllOk s1 id).2 =
      match op with
      | Op.set idx _ _ => decide (idx = id) || (GetAllOk s id).2
      | Op.delete _ _ => (GetAllOk s id).2
      | Op.clear idx => (GetAllOk s id).2 && !decide (idx = id) := by
  cases op with
  | set idx key val =>
    have h2 : some s1 = some _ := h.symm.trans (Set_eq s idx key val)
    cases h2
    rw [GetAllOk_snd, GetAllOk_snd]
    by_cases hi : idx = id
    · subst hi; simp [Finmap.lookup_insert]
    · have hi2 : id ≠ idx := fun e => hi e.symm
      simp [hi, Finmap.lookup_insert_of_ne _ hi2]
  | delete idx key =>
    have h2 : some (Delete s idx key) = some s1 := h
    cases h2
    rw [GetAllOk_snd, GetAllOk_snd, lookup_Delete_isSome]
  | clear idx =>
    have h2 : some (Clear s idx) = some s1 := h
    cases h2
    rw [GetAllOk_snd, GetAllOk_snd, Clear_data]
    by_cases hi : idx = id
    · subst hi; simp [Finmap.lookup_erase]
    · have hi2 : id ≠ idx := fun e => hi e.symm
      simp [hi, Finmap.lookup_erase_ne hi2]

theorem not_setSinceClear_nil (id : String) : ¬ SetSinceClear id ([] : List (Op α)) := by
  rintro ⟨pre, post, k, v, h, _⟩
  cases pre <;> cases h

theorem setSinceClear_snoc (id : String) (ops : List (Op α)) (op : Op α) :
    SetSinceClear id (ops ++ [op]) ↔
      (∃ k v, op = Op.set id k v) ∨ (SetSinceClear id ops ∧ op ≠ Op.clear id) := by
  constructor
  · rintro ⟨pre, post, k, v, h, hc⟩
    rcases List.eq_nil_or_concat post with hp | ⟨L, b, hp⟩
    · subst hp
      have h2 : ops ++ [op] = pre ++ [Op.set id k v] := h
      have h3 := List.append_inj' h2 rfl
      left
      exact ⟨k, v, by simpa using h3.2⟩
    · subst hp
      have h2 : ops ++ [op] = (pre ++ Op.set id k v :: L) ++ [b] := by
        rw [h]; simp
      have h3 := List.append_inj' h2 rfl
      right
      have hb : op = b := by simpa using h3.2
      refine ⟨⟨pre, L, k, v, h3.1, ?_⟩, ?_⟩
      · intro hm
        exact hc (by simp [hm])
      · intro e
        apply hc
        rw [← hb, e]
        simp
  · rintro (⟨k, v, rfl⟩ | ⟨⟨pre, post, k, v, h, hc⟩, hop⟩)
    · exact ⟨ops, [], k, v, rfl, by simp⟩
    · refine ⟨pre, post ++ [op], k, v, by rw [h]; simp, ?_⟩
      intro hm
      rcases List.mem_append.mp hm with h1 | h1
      · exact hc h1
      · have e : Op.clear id = op := by simpa using h1
        exact hop e.symm

/-- After any sequence of mutating calls on the empty store, `id` is
registered exactly when the sequence has a `Set` on `id` with no later
`Clear(id)`. -/
theorem run_found_iff (id : String) (ops : List (Op α)) :
    ∃ s, run ops Store.empty = some s ∧
      ((GetAllOk s id).2 = true ↔ SetSinceClear id ops) := by
  induction ops using List.reverseRecOn with
  | nil =>
    refine ⟨Store.empty, rfl, ?_⟩
    constructor
    · intro h
      rw [GetAllOk_snd] at h
      simp [Store.empty] at h
    · intro h
      exact absurd h (not_setSinceClear_nil id)
  | append_singleton ops op ih =>
    obtain ⟨s, hs, hiff⟩ := ih
    obtain ⟨s1, h1⟩ := run_total [op] s
    have h1b : op.apply s = some s1 := by
      simp only [run] at h1
      cases ho : op.apply s with
      | none => rw [ho] at h1; cases h1
      | some t => rw [ho] at h1; exact h1
    refine ⟨s1, by rw [run_snoc, hs]; exact h1b, ?_⟩
    rw [setSinceClear_snoc, ← hiff, found_apply id op s s1 h1b]
    cases op with
    | set idx key val =>
      by_cases hi : idx = id
      · subst hi; simp
      · simp only [hi, decide_False, Bool.false_or]
        constructor
        · intro h; right; exact ⟨h, by simp⟩
        · rintro (⟨k, v, e⟩ | ⟨h, _⟩)
          · cases e; exact absurd rfl hi
          · exact h
    | delete idx key => simp
    | clear idx =>
      by_cases hi : idx = id
      · subst hi; simp
      · simp [hi]

/-- The contents of the bag of `id` after deleting a list of keys from it. -/
theorem lookup_foldl_Delete (id k : String) (ks : List String) :
    ∀ s : Store α, (contents (ks.foldl (fun t x => Delete t id x) s).data id).lookup k =
      if k ∈ ks then none else (contents s.data id).lookup k := by
  induction ks with
  | nil => intro s; simp
  | cons k0 rest ih =>
    intro s
    rw [List.foldl_cons, ih, contents_Delete, if_pos rfl]
    by_cases hk : k = k0
    · subst hk; simp [Finmap.lookup_erase]
    · by_cases hr : k ∈ rest
      · simp [hr]
      · simp [hr, hk, Finmap.lookup_erase_ne hk]

theorem foldl_Delete_isSome (id b : String) (ks : List String) :
    ∀ s : Store α, ((ks.foldl (fun t x => Delete t id x) s).data.lookup b).isSome =
      (s.data.lookup b).isSome := by
  induction ks with
  | nil => intro s; rfl
  | cons k0 rest ih =>
    intro s
    rw [List.foldl_cons, ih, lookup_Delete_isSome]

namespace Locked

/-- Closed form of `Get` with its lock, called while no writer holds it. -/
theorem Get_shared (n : Nat) (st : Store α) (o : List String) (t : List (Event α))
    (idx key : String) :
    Get ⟨⟨false, n⟩, st, o, t⟩ idx key =
      Except.ok (Context.Get st idx key,
        ⟨⟨false, n⟩, st, o, t ++ [Event.rlock, Event.runlock]⟩) := by
  cases h : (dataIndexOk st.data idx).1 with
  | none =>
    simp [Get, RLock, RUnlock, bind, Except.bind, pure, Except.pure, Context.Get, h]
  | some ctx =>
    cases h2 : (Bag.indexOk (some ctx) key).2 <;>
      simp [Get, RLock, RUnlock, bind, Except.bind, pure, Except.pure, Context.Get, h, h2]

/-- Closed form of `GetOk` with its lock, called while no writer holds it. -/
theorem GetOk_shared (n : Nat) (st : Store α) (o : List String) (t : List (Event α))
    (idx key : String) :
    GetOk ⟨⟨false, n⟩, st, o, t⟩ idx key =
      Except.ok (Context.GetOk st idx key,
        ⟨⟨false, n⟩, st, o, t ++ [Event.rlock, Event.runlock]⟩) := by
  cases h : (dataIndexOk st.data idx).2 <;>
    simp [GetOk, RLock, RUnlock, bind, Except.bind, pure, Except.pure, Context.GetOk, h]

/-- Closed form of `GetAll` with its lock, called while no writer holds it. -/
theorem GetAll_shared (n : Nat) (st : Store α) (o : List String) (t : List (Event α))
    (idx : String) :
    GetAll ⟨⟨false, n⟩, st, o, t⟩ idx =
      Except.ok (Context.GetAll st idx,
        ⟨⟨false, n⟩, st, o,
          t ++ (match Context.GetAll st idx with
            | some m => [Event.rlock, Event.copied m, Event.runlock]
            | none => [Event.rlock, Event.runlock])⟩) := by
  cases h : (dataIndexOk st.data idx).2 <;>
    simp [GetAll, RLock, RUnlock, bind, Except.bind, pure, Except.pure, Context.GetAll,
      copyBag, h]

/-- Closed form of `GetAllOk` with its lock, called while no writer holds it. -/
theorem GetAllOk_shared (n : Nat) (st : Store α) (o : List String) (t : List (Event α))
    (idx : String) :
    GetAllOk ⟨⟨false, n⟩, st, o, t⟩ idx =
      Except.ok (Context.GetAllOk st idx,
        ⟨⟨false, n⟩, st, o,
          t ++ [Event.rlock, Event.copied (rangeCopy (dataIndexOk st.data idx).1),
            Event.runlock]⟩) := by
  simp [GetAllOk, RLock, RUnlock, bind, Except.bind, pure, Except.pure, Context.GetAllOk,
    copyBag]

/-- Closed form of `Set` with its lock, started with the lock free. -/
theorem Set_free (st : Store α) (o : List String) (t : List (Event α))
    (idx key : String) (val : Value α) :
    ∃ s1, Context.Set st idx key val = some s1 ∧
      Set ⟨RWMutex.free, st, o, t⟩ idx key val =
        Except.ok ⟨RWMutex.free, s1, o, t ++ [Event.lock, Event.unlock]⟩ := by
  refine ⟨_, Context.Set_eq st idx key val, ?_⟩
  simp [Set, Lock, Unlock, RWMutex.free, bind, Except.bind, Context.Set_eq]

/-- Closed form of `Get` with its lock, started with the lock free. -/
theorem Get_free (st : Store α) (o : List String) (t : List (Event α)) (idx key : String) :
    Get ⟨RWMutex.free, st, o, t⟩ idx key =
      Except.ok (Context.Get st idx key,
        ⟨RWMutex.free, st, o, t ++ [Event.rlock, Event.runlock]⟩) :=
  Get_shared 0 st o t idx key

/-- Closed form of `GetOk` with its lock, started with the lock free. -/
theorem GetOk_free (st : Store α) (o : List String) (t : List (Event α)) (idx key : String) :
    GetOk ⟨RWMutex.free, st, o, t⟩ idx key =
      Except.ok (Context.GetOk st idx key,
        ⟨RWMutex.free, st, o, t ++ [Event.rlock, Event.runlock]⟩) :=
  GetOk_shared 0 st o t idx key

/-- Closed form of `GetAll` with its lock, started with the lock free. -/
theorem GetAll_free (st : Store α) (o : List String) (t : List (Event α)) (idx : String) :
    GetAll ⟨RWMutex.free, st, o, t⟩ idx =
      Except.ok (Context.GetAll st idx,
        ⟨RWMutex.free, st, o,
          t ++ (match Context.GetAll st idx with
            | some m => [Event.rlock, Event.copied m, Event.runlock]
            | none => [Event.rlock, Event.runlock])⟩) :=
  GetAll_shared 0 st o t idx

/-- Closed form of `GetAllOk` with its lock, started with the lock free. -/
theorem GetAllOk_free (st : Store α) (o : List String) (t : List (Event α)) (idx : String) :
    GetAllOk ⟨RWMutex.free, st, o, t⟩ idx =
      Except.ok (Context.GetAllOk st idx,
        ⟨RWMutex.free, st, o,
          t ++ [Event.rlock, Event.copied (rangeCopy (dataIndexOk st.data idx).1),
            Event.runlock]⟩) :=
  GetAllOk_shared 0 st o t idx

/-- Closed form of `Delete` with its lock, started with the lock free. -/
theorem Delete_free (st : Store α) (o : List String) (t : List (Event α))
    (idx key : String) :
    Delete ⟨RWMutex.free, st, o, t⟩ idx key =
      Except.ok ⟨RWMutex.free, Context.Delete st idx key, o,
        t ++ [Event.lock, Event.unlock]⟩ := by
  simp [Delete, Lock, Unlock, RWMutex.free, bind, Except.bind]

/-- Closed form of `Clear` with its lock, started with the lock free. -/
theorem Clear_free (st : Store α) (o : List String) (t : List (Event α)) (idx : String) :
    Clear ⟨RWMutex.free, st, o, t⟩ idx =
      Except.ok ⟨RWMutex.free, Context.Clear st idx, o, t ++ [Event.lock, Event.unlock]⟩ := by
  simp [Clear, Context.Clear, Lock, Unlock, RWMutex.free, bind, Except.bind]

end Locked

/-! ## The claims -/

/-- C1 (read-your-write with overwrite): on every store, `Set(id, key, v1)`
and then `Set(id, key, v2)` both return, and afterwards `Get(id, key)` is `v2`
and `GetOk(id, key)` is `(v2, true)`; already after the first `Set`, whether or
not the bag existed, `GetOk(id, key)` is `(v1, true)`. -/
theorem set_set_get (s : Store α) (id key : String) (v1 v2 : Value α) :
    ∃ s1 s2, Set s id key v1 = some s1 ∧ Set s1 id key v2 = some s2 ∧
      GetOk s1 id key = (v1, true) ∧
      Get s2 id key = v2 ∧ GetOk s2 id key = (v2, true) := by
  refine ⟨_, _, Set_eq s id key v1, Set_eq _ id key v2, ?_, ?_, ?_⟩
  · rw [GetOk_eq, contents_insert_self, indexOk_insert_self]
  · rw [Get_eq, contents_insert_self, indexOk_insert_self]
  · rw [GetOk_eq, contents_insert_self, indexOk_insert_self]

/-- C2 (isolation between requests): for distinct ids `a ≠ b`, `Set(a, k, v)`
returns and leaves the results of `Get(b, k2)`, `GetOk(b, k2)` and
`GetAllOk(b)` as they were. -/
theorem set_isolation (s : Store α) (a b k k2 : String) (v : Value α) (hab : a ≠ b) :
    ∃ s1, Set s a k v = some s1 ∧ Get s1 b k2 = Get s b k2 ∧
      GetOk s1 b k2 = GetOk s b k2 ∧ GetAllOk s1 b = GetAllOk s b := by
  have hba : b ≠ a := fun h => hab h.symm
  refine ⟨_, Set_eq s a k v, ?_, ?_, ?_⟩
  · rw [Get_eq, Get_eq, contents_insert_of_ne _ hba]
  · rw [GetOk_eq, GetOk_eq, contents_insert_of_ne _ hba]
  · rw [GetAllOk_eq, GetAllOk_eq, contents_insert_of_ne _ hba]
    simp only [Finmap.lookup_insert_of_ne _ hba]

theorem set_isolation_witness :
    "a" ≠ "b" ∧
    ∃ s1, Set (Store.mk (Finmap.singleton "b" (some (Finmap.singleton "k" (Value.dyn 7)))))
        "a" "k" (Value.dyn 1) = some s1 ∧
      Get s1 "b" "k" =
        Get (Store.mk (Finmap.singleton "b" (some (Finmap.singleton "k" (Value.dyn 7))))) "b" "k" ∧
      GetOk s1 "b" "k" =
        GetOk (Store.mk (Finmap.singleton "b" (some (Finmap.singleton "k" (Value.dyn 7)))))
          "b" "k" ∧
      GetAllOk s1 "b" =
        GetAllOk (Store.mk (Finmap.singleton "b" (some (Finmap.singleton "k" (Value.dyn 7)))))
          "b" :=
  ⟨by decide, set_isolation _ "a" "b" "k" "k" (Value.dyn 1) (by decide)⟩

/-- C3 (presence disambiguation): on every store, `Set(id, k, nil)` returns
and afterwards `GetOk(id, k)` is `(nil, true)` while `Get(id, k)` is nil; and
every finite sequence of `Set`/`Delete`/`Clear` calls on the initially empty
store that contains no `Set(id, k, _)` returns and leaves `GetOk(id, k)` at
`(nil, false)`. -/
theorem presence_disambiguation (s : Store α) (id k : String) :
    (∃ s1, Set s id k Value.nil = some s1 ∧
      GetOk s1 id k = (Value.nil, true) ∧ Get s1 id k = Value.nil) ∧
    (∀ ops : List (Op α), (∀ op ∈ ops, ∀ v, op ≠ Op.set id k v) →
      ∃ s1, run ops Store.empty = some s1 ∧ GetOk s1 id k = (Value.nil, false)) := by
  constructor
  · refine ⟨_, Set_eq s id k Value.nil, ?_, ?_⟩
    · rw [GetOk_eq, contents_insert_self, indexOk_insert_self]
    · rw [Get_eq, contents_insert_self, indexOk_insert_self]
  · intro ops hops
    exact run_keeps_absent id k ops Store.empty hops (GetOk_empty id k)

theorem presence_disambiguation_witness :
    ∃ s1, run [Op.set "r" "a" (Value.dyn 1), Op.delete "r" "k", Op.clear "q"]
        (Store.empty : Store Nat) = some s1 ∧ GetOk s1 "r" "k" = (Value.nil, false) :=
  (presence_disambiguation (Store.empty : Store Nat) "r" "k").2
    [Op.set "r" "a" (Value.dyn 1), Op.delete "r" "k", Op.clear "q"]
    (by
      intro op hop v
      simp only [List.mem_cons, List.mem_singleton, List.not_mem_nil, or_false] at hop
      rcases hop with rfl | rfl | rfl <;> simp)

/-- C4 (Clear totality): after `Clear(id)` on any store, every key `k` has
`GetOk(id, k) = (nil, false)` and `Get(id, k) = nil`, `GetAllOk(id)` is an
allocated empty map with `false`, and `GetAll(id)` is the nil map; in
particular so after `Set(id, k, v)` followed by `Clear(id)`. -/
theorem clear_totality (s : Store α) (id : String) :
    ((∀ k, GetOk (Clear s id) id k = (Value.nil, false) ∧ Get (Clear s id) id k = Value.nil) ∧
      GetAllOk (Clear s id) id = (some ∅, false) ∧ GetAll (Clear s id) id = none) ∧
    (∀ (k : String) (v : Value α), ∃ s1, Set s id k v = some s1 ∧
      (∀ k2, GetOk (Clear s1 id) id k2 = (Value.nil, false) ∧
        Get (Clear s1 id) id k2 = Value.nil) ∧
      GetAllOk (Clear s1 id) id = (some ∅, false) ∧ GetAll (Clear s1 id) id = none) := by
  have hclr : ∀ t : Store α,
      (∀ k, GetOk (Clear t id) id k = (Value.nil, false) ∧ Get (Clear t id) id k = Value.nil) ∧
      GetAllOk (Clear t id) id = (some ∅, false) ∧ GetAll (Clear t id) id = none := by
    intro t
    have hc : contents (Clear t id).data id = ∅ := contents_erase_self t.data id
    have hl : (Clear t id).data.lookup id = none := Finmap.lookup_erase id t.data
    refine ⟨fun k => ⟨?_, ?_⟩, ?_, ?_⟩
    · rw [GetOk_eq, hc, indexOk_empty]
    · rw [Get_eq, hc, indexOk_empty]
    · rw [GetAllOk_eq, hc, hl]; rfl
    · rw [GetAll_eq, hl]; rfl
  exact ⟨hclr s, fun k v => ⟨_, Set_eq s id k v, hclr _⟩⟩

/-- C5 (Clear is idempotent): `Clear` is a total function of the store, a
second `Clear(id)` gives the same store as the first, and `Clear(id)` on a
store in which `id` is not registered gives back that store. -/
theorem clear_idempotent (s : Store α) (id : String) :
    Clear (Clear s id) id = Clear s id ∧
    ((GetAllOk s id).2 = false → Clear s id = s) := by
  constructor
  · show Store.mk ((s.data.erase id).erase id) = Store.mk (s.data.erase id)
    rw [finmap_erase_of_lookup_none _ (Finmap.lookup_erase id s.data)]
  · intro h
    show Store.mk (s.data.erase id) = s
    rw [finmap_erase_of_lookup_none _ (lookup_none_of_not_found h)]

theorem clear_idempotent_witness :
    (GetAllOk (Store.mk (Finmap.singleton "b" (some (Finmap.singleton "k" (Value.dyn 7)))))
      "r").2 = false ∧
    Clear (Store.mk (Finmap.singleton "b" (some (Finmap.singleton "k" (Value.dyn 7))))) "r" =
      Store.mk (Finmap.singleton "b" (some (Finmap.singleton "k" (Value.dyn 7)))) :=
  ⟨by decide, (clear_idempotent _ "r").2 (by decide)⟩

/-- C6 (Delete on something absent is a no-op): if `GetOk(id, key)` reports
`false` (the id is not registered, or its bag has no such key), `Delete(id,
key)` leaves the store unchanged, `GetAllOk(id)` keeps its flag, and
`GetOk(id, key)` afterwards is `(nil, false)`. -/
theorem delete_absent_noop (s : Store α) (id key : String)
    (h : (GetOk s id key).2 = false) :
    Delete s id key = s ∧
    (GetAllOk (Delete s id key) id).2 = (GetAllOk s id).2 ∧
    GetOk (Delete s id key) id key = (Value.nil, false) := by
  have hd : Delete s id key = s := Delete_of_not_found h
  refine ⟨hd, by rw [hd], ?_⟩
  rw [hd]
  rw [GetOk_eq] at h ⊢
  exact indexOk_of_lookup_none (lookup_none_of_indexOk h)

theorem delete_absent_noop_witness :
    (GetOk (Store.mk (Finmap.singleton "r" (some (Finmap.singleton "a" (Value.dyn 7)))))
      "r" "k").2 = false ∧
    Delete (Store.mk (Finmap.singleton "r" (some (Finmap.singleton "a" (Value.dyn 7))))) "r" "k" =
      Store.mk (Finmap.singleton "r" (some (Finmap.singleton "a" (Value.dyn 7)))) ∧
    (GetAllOk (Delete (Store.mk (Finmap.singleton "r" (some (Finmap.singleton "a" (Value.dyn 7)))))
      "r" "k") "r").2 =
      (GetAllOk (Store.mk (Finmap.singleton "r" (some (Finmap.singleton "a" (Value.dyn 7)))))
        "r").2 ∧
    GetOk (Delete (Store.mk (Finmap.singleton "r" (some (Finmap.singleton "a" (Value.dyn 7)))))
      "r" "k") "r" "k" = (Value.nil, false) :=
  ⟨by decide, delete_absent_noop _ "r" "k" (by decide)⟩

/-- C7 (Delete removes the key): after `Delete(id, key)` on any store,
`GetOk(id, key)` is `(nil, false)` and `Get(id, key)` is nil; in particular
right after `Set(id, key, v)`. -/
theorem delete_removes (s : Store α) (id key : String) :
    (GetOk (Delete s id key) id key = (Value.nil, false) ∧
      Get (Delete s id key) id key = Value.nil) ∧
    (∀ v : Value α, ∃ s1, Set s id key v = some s1 ∧
      GetOk (Delete s1 id key) id key = (Value.nil, false) ∧
      Get (Delete s1 id key) id key = Value.nil) := by
  have hdel : ∀ t : Store α, GetOk (Delete t id key) id key = (Value.nil, false) ∧
      Get (Delete t id key) id key = Value.nil := by
    intro t
    constructor
    · rw [GetOk_eq, contents_Delete, if_pos rfl, indexOk_erase_self]
    · rw [Get_eq, contents_Delete, if_pos rfl, indexOk_erase_self]
  exact ⟨hdel s, fun v => ⟨_, Set_eq s id key v, hdel _⟩⟩

/-- C8 (GetAll returns exactly the bag): if `id` is registered, `GetAll(id)`
is an allocated map in which every key reads as `GetOk(id, k)` reads it from
the store, with the key set of the bag and as many entries as `len` of the
bag. -/
theorem getAll_exact (s : Store α) (id : String) (h : (GetAllOk s id).2 = true) :
    ∃ m : GoMap α, GetAll s id = some m ∧
      (∀ k, Bag.indexOk (some m) k = GetOk s id k) ∧
      (∀ k, k ∈ m ↔ (GetOk s id k).2 = true) ∧
      m.keys.card = Bag.len (dataIndexOk s.data id).1 := by
  rw [GetAllOk_snd] at h
  refine ⟨contents s.data id, ?_, ?_, ?_, ?_⟩
  · rw [GetAll_eq, if_pos h]
  · intro k; rw [GetOk_eq]
  · intro k
    rw [GetOk_eq, indexOk_snd, Finmap.lookup_isSome]
  · unfold dataIndexOk contents
    cases hl : s.data.lookup id with
    | none => rw [hl] at h; cases h
    | some b =>
      cases b with
      | none => rfl
      | some c => rfl

theorem getAll_exact_witness :
    (GetAllOk (Store.mk (Finmap.singleton "r" (some (Finmap.singleton "k" (Value.dyn 1)))))
      "r").2 = true ∧
    ∃ m : GoMap Nat,
      GetAll (Store.mk (Finmap.singleton "r" (some (Finmap.singleton "k" (Value.dyn 1))))) "r"
        = some m ∧
      (∀ k, Bag.indexOk (some m) k =
        GetOk (Store.mk (Finmap.singleton "r" (some (Finmap.singleton "k" (Value.dyn 1))))) "r" k) ∧
      (∀ k, k ∈ m ↔
        (GetOk (Store.mk (Finmap.singleton "r" (some (Finmap.singleton "k" (Value.dyn 1)))))
          "r" k).2 = true) ∧
      m.keys.card = Bag.len (dataIndexOk
        (Store.mk (Finmap.singleton "r" (some (Finmap.singleton "k" (Value.dyn 1))))).data "r").1 :=
  ⟨by decide, getAll_exact _ "r" (by decide)⟩

namespace Heap

/-- C9 (snapshot isolation of GetAll/GetAllOk), on the reference semantics:
from a well-formed state, `Set(id, k, v)` returns; if `m` is the map that
`GetAll(id)` or `GetAllOk(id)` then returns, `m` maps `k` to `v`, and still
does after a later `Set(id, k, v2)`, `Delete(id, k)` or `Clear(id)`; and an
assignment `m[k2] = w` by the caller does not change what `GetOk(id, k)`
returns. -/
theorem snapshot_isolation (s : State α) (hwf : WF s) (id k k2 : String)
    (v v2 w : Value α) :
    ∃ s1, Set s id k v = some s1 ∧
      ∀ (m : Ref) (s2 : State α),
        (m, s2) = GetAll s1 id ∨ (m, s2) = ((GetAllOk s1 id).1.1, (GetAllOk s1 id).2) →
        index s2 m k = (v, true) ∧
        (∃ s3, Set s2 id k v2 = some s3 ∧ index s3 m k = (v, true)) ∧
        index (Delete s2 id k) m k = (v, true) ∧
        index (Clear s2 id) m k = (v, true) ∧
        (∃ s3, assign s2 m k2 w = some s3 ∧ GetOk s3 id k = GetOk s2 id k) := by
  obtain ⟨s1, a, c, hset, hl, ha, hc⟩ := Set_spec s hwf id k v
  refine ⟨s1, hset, ?_⟩
  intro m s2 hm
  have hlt : a < s1.heap.length := by
    rcases Nat.lt_or_ge a s1.heap.length with h | h
    · exact h
    · rw [List.getElem?_eq_none h] at ha; cases ha
  have hms : (m, s2) =
      (some s1.heap.length, (⟨s1.heap ++ [deref s1.heap (some a)], s1.data⟩ : State α)) := by
    rcases hm with h | h
    · rw [h, GetAll_of_bound s1 hl]
    · rw [h, GetAllOk_of_bound s1 hl]
  cases hms
  refine held_map_separate (State.mk (s1.heap ++ [deref s1.heap (some a)]) s1.data)
    id k a s1.heap.length c v hl (Nat.ne_of_lt hlt) ?_ hc k2 v2 w
  simp [deref, ha]

theorem snapshot_isolation_witness :
    WF (State.empty : State Nat) ∧
    ∃ s1, Set (State.empty : State Nat) "r" "k" (Value.dyn 1) = some s1 ∧
      ∀ (m : Ref) (s2 : State Nat),
        (m, s2) = GetAll s1 "r" ∨ (m, s2) = ((GetAllOk s1 "r").1.1, (GetAllOk s1 "r").2) →
        index s2 m "k" = (Value.dyn 1, true) ∧
        (∃ s3, Set s2 "r" "k" (Value.dyn 2) = some s3 ∧ index s3 m "k" = (Value.dyn 1, true)) ∧
        index (Delete s2 "r" "k") m "k" = (Value.dyn 1, true) ∧
        index (Clear s2 "r") m "k" = (Value.dyn 1, true) ∧
        (∃ s3, assign s2 m "k" (Value.dyn 3) = some s3 ∧ GetOk s3 "r" "k" = GetOk s2 "r" "k") :=
  ⟨fun _ _ h => by simp [State.empty] at h,
    snapshot_isolation State.empty (fun _ _ h => by simp [State.empty] at h)
      "r" "k" "k" (Value.dyn 1) (Value.dyn 2) (Value.dyn 3)⟩

end Heap

/-- C10 (GetAllOk agrees with GetAll): `GetAllOk(id)` reports `true` exactly
when `GetAll(id)` is not the nil map, and then both return the same map;
when `id` is not registered `GetAll(id)` is the nil map while `GetAllOk(id)`
is an allocated empty map with `false`. -/
theorem getAllOk_agrees (s : Store α) (id : String) :
    ((GetAllOk s id).2 = true ↔ GetAll s id ≠ none) ∧
    ((GetAllOk s id).2 = true → (GetAllOk s id).1 = GetAll s id) ∧
    ((GetAllOk s id).2 = false → GetAll s id = none ∧ GetAllOk s id = (some ∅, false)) := by
  rw [GetAllOk_eq, GetAll_eq]
  cases hl : s.data.lookup id with
  | none => simp [contents, hl]
  | some b => simp

theorem getAllOk_agrees_witness :
    (GetAllOk (Store.empty : Store Nat) "r").2 = false ∧
    GetAll (Store.empty : Store Nat) "r" = none ∧
    GetAllOk (Store.empty : Store Nat) "r" = (some ∅, false) :=
  ⟨by decide, (getAllOk_agrees (Store.empty : Store Nat) "r").2.2 (by decide)⟩

/-- C11 (Get is GetOk without the flag): on every store `Get(id, key)` is the
value component of `GetOk(id, key)`; when `GetOk` reports `true` it is the
value stored under `key` in the bag of `id`, and when `GetOk` reports `false`
it is nil.  This covers the id bound to the nil map, where the test of `Get`
(bag not nil) and the test of `GetOk` (id present) differ. -/
theorem get_is_getOk_value (s : Store α) (id key : String) :
    Get s id key = (GetOk s id key).1 ∧
    ((GetOk s id key).2 = true →
      ∃ c : GoMap α, s.data.lookup id = some (some c) ∧ c.lookup key = some (Get s id key)) ∧
    ((GetOk s id key).2 = false → Get s id key = Value.nil) := by
  rw [Get_eq, GetOk_eq]
  refine ⟨rfl, ?_, ?_⟩
  · intro h
    rw [indexOk_snd] at h
    unfold contents at h ⊢
    cases hl : s.data.lookup id with
    | none => rw [hl] at h; simp at h
    | some b =>
      cases b with
      | none => rw [hl] at h; simp at h
      | some c =>
        rw [hl] at h
        simp only at h ⊢
        refine ⟨c, rfl, ?_⟩
        cases hk : c.lookup key with
        | none => rw [hk] at h; cases h
        | some v => simp [Bag.indexOk, hk]
  · intro h
    rw [indexOk_of_lookup_none (lookup_none_of_indexOk h)]

theorem get_is_getOk_value_witness :
    (GetOk (Store.mk (Finmap.singleton "r" (none : Bag Nat))) "r" "k").2 = false ∧
    Get (Store.mk (Finmap.singleton "r" (none : Bag Nat))) "r" "k" = Value.nil :=
  ⟨by decide, (get_is_getOk_value _ "r" "k").2.2 (by decide)⟩

/-- C12 (bag-existence invariant): every finite sequence of `Set`, `Delete`
and `Clear` calls on the initially empty store returns, and afterwards
`GetAllOk(id)` reports `true` if and only if the sequence contains a `Set` on
`id` that is not followed by a later `Clear(id)`.  `Delete` never changes the
flag, so deleting every key of a registered bag leaves an allocated empty bag
with `true`; and a call that turns the flag from `true` to `false` is
`Clear(id)`. -/
theorem bag_existence (id : String) :
    (∀ ops : List (Op α), ∃ s, run ops Store.empty = some s ∧
      ((GetAllOk s id).2 = true ↔ SetSinceClear id ops)) ∧
    (∀ (s : Store α) (id2 k : String),
      (GetAllOk (Delete s id2 k) id).2 = (GetAllOk s id).2) ∧
    (∀ (s : Store α) (ks : List String), (GetAllOk s id).2 = true →
      (∀ k, (GetOk s id k).2 = true → k ∈ ks) →
      GetAllOk (ks.foldl (fun t k => Delete t id k) s) id = (some ∅, true)) ∧
    (∀ (s s1 : Store α) (op : Op α), op.apply s = some s1 →
      (GetAllOk s id).2 = true → (GetAllOk s1 id).2 = false → op = Op.clear id) := by
  refine ⟨run_found_iff id, ?_, ?_, ?_⟩
  · intro s id2 k
    rw [GetAllOk_snd, GetAllOk_snd, lookup_Delete_isSome]
  · intro s ks hf hks
    rw [GetAllOk_snd] at hf
    rw [GetAllOk_eq, foldl_Delete_isSome, hf]
    have hempty : contents (ks.foldl (fun t k => Delete t id k) s).data id = ∅ := by
      apply Finmap.ext_lookup
      intro k
      rw [lookup_foldl_Delete, Finmap.lookup_empty]
      by_cases hk : k ∈ ks
      · rw [if_pos hk]
      · rw [if_neg hk]
        have hno : (GetOk s id k).2 = false := by
          cases hg : (GetOk s id k).2 with
          | false => rfl
          | true => exact absurd (hks k hg) hk
        rw [GetOk_eq] at hno
        exact lookup_none_of_indexOk hno
    rw [hempty]
  · intro s s1 op hop h0 h1
    have hstep := found_apply id op s s1 hop
    rw [h0, h1] at hstep
    cases op with
    | set idx key val => simp at hstep
    | delete idx key => simp at hstep
    | clear idx =>
      have hi : idx = id := by simpa using hstep
      rw [hi]

theorem bag_existence_witness :
    (GetAllOk (Store.mk (Finmap.singleton "r" (some (Finmap.singleton "a" (Value.dyn 7)))))
      "r").2 = true ∧
    GetAllOk (["a"].foldl (fun t k => Delete t "r" k)
      (Store.mk (Finmap.singleton "r" (some (Finmap.singleton "a" (Value.dyn 7)))))) "r" =
      (some ∅, true) :=
  ⟨by decide,
    (bag_existence "r").2.2.1
      (Store.mk (Finmap.singleton "r" (some (Finmap.singleton "a" (Value.dyn 7))))) ["a"]
      (by decide)
      (by
        intro k hk
        rw [GetOk_eq, indexOk_snd] at hk
        by_cases hka : k = "a"
        · simp [hka]
        · have hc : contents (Store.mk (Finmap.singleton "r"
              (some (Finmap.singleton "a" (Value.dyn 7))))).data "r" =
              (Finmap.singleton "a" (Value.dyn 7) : GoMap Nat) := by decide
          rw [hc] at hk
          have hnot : k ∉ (Finmap.singleton "a" (Value.dyn 7) : GoMap Nat) := by
            rw [Finmap.mem_singleton]; exact hka
          rw [Finmap.lookup_eq_none.mpr hnot] at hk
          cases hk)⟩

/-- C13 (end-to-end scenario): from the empty store, `Set("req1", "user",
"alice")` and `Set("req1", "role", "admin")` return, `GetAll("req1")` is then
exactly the two-entry map with `user` bound to `alice` and `role` bound to
`admin`, and after `Clear("req1")` the call `GetAllOk("req1")` gives an
allocated empty map with `false`. -/
theorem end_to_end_scenario :
    ∃ s1 s2 : Store String,
      Set Store.empty "req1" "user" (Value.dyn "alice") = some s1 ∧
      Set s1 "req1" "role" (Value.dyn "admin") = some s2 ∧
      GetAll s2 "req1" =
        some (((∅ : GoMap String).insert "user" (Value.dyn "alice")).insert "role"
          (Value.dyn "admin")) ∧
      Bag.len (GetAll s2 "req1") = 2 ∧
      GetAllOk (Clear s2 "req1") "req1" = (some ∅, false) := by
  have hc : contents (Store.empty : Store String).data "req1" = ∅ := rfl
  refine ⟨_, _, Set_eq _ _ _ _, Set_eq _ _ _ _, ?_, ?_, ?_⟩
  · rw [GetAll_eq, contents_insert_self, contents_insert_self, hc, Finmap.lookup_insert]
    rfl
  · rw [GetAll_eq, contents_insert_self, contents_insert_self, hc, Finmap.lookup_insert]
    decide
  · rw [GetAllOk_eq]
    rw [Clear_data, contents_erase_self, Finmap.lookup_erase]
    rfl

namespace Locked

/-- C14 (no operation can fail): on every store state, the empty one
included, and for every id, key and value, each of `Set`, `Get`, `GetOk`,
`GetAll`, `GetAllOk`, `Delete` and `Clear`, called with the lock free, returns
without panic and without waiting for ever; in particular the body of `Set`
never assigns into a nil map, whatever `data[idx]` was. -/
theorem no_operation_fails (w : World α) (hw : w.mutex = RWMutex.free)
    (idx key : String) (val : Value α) :
    (∃ w1, Set w idx key val = Except.ok w1) ∧
    (∃ r, Get w idx key = Except.ok r) ∧
    (∃ r, GetOk w idx key = Except.ok r) ∧
    (∃ r, GetAll w idx = Except.ok r) ∧
    (∃ r, GetAllOk w idx = Except.ok r) ∧
    (∃ w1, Delete w idx key = Except.ok w1) ∧
    (∃ w1, Clear w idx = Except.ok w1) ∧
    (∀ st : Store α, ∃ s1, Context.Set st idx key val = some s1) := by
  obtain ⟨m, st, o, t⟩ := w
  simp only at hw
  subst hw
  obtain ⟨s1, _, hset⟩ := Set_free st o t idx key val
  exact ⟨⟨_, hset⟩, ⟨_, Get_free st o t idx key⟩, ⟨_, GetOk_free st o t idx key⟩,
    ⟨_, GetAll_free st o t idx⟩, ⟨_, GetAllOk_free st o t idx⟩,
    ⟨_, Delete_free st o t idx key⟩, ⟨_, Clear_free st o t idx⟩,
    fun st2 => ⟨_, Context.Set_eq st2 idx key val⟩⟩

theorem no_operation_fails_witness :
    (World.mk RWMutex.free (Store.empty : Store Nat) [] []).mutex = RWMutex.free ∧
    (∃ w1, Set (World.mk RWMutex.free (Store.empty : Store Nat) [] []) "r" "k" (Value.dyn 1)
      = Except.ok w1) ∧
    (∃ r, Get (World.mk RWMutex.free (Store.empty : Store Nat) [] []) "r" "k" = Except.ok r) ∧
    (∃ r, GetOk (World.mk RWMutex.free (Store.empty : Store Nat) [] []) "r" "k" = Except.ok r) ∧
    (∃ r, GetAll (World.mk RWMutex.free (Store.empty : Store Nat) [] []) "r" = Except.ok r) ∧
    (∃ r, GetAllOk (World.mk RWMutex.free (Store.empty : Store Nat) [] []) "r" = Except.ok r) ∧
    (∃ w1, Delete (World.mk RWMutex.free (Store.empty : Store Nat) [] []) "r" "k"
      = Except.ok w1) ∧
    (∃ w1, Clear (World.mk RWMutex.free (Store.empty : Store Nat) [] []) "r" = Except.ok w1) ∧
    (∀ st : Store Nat, ∃ s1, Context.Set st "r" "k" (Value.dyn 1) = some s1) :=
  ⟨rfl, no_operation_fails _ rfl "r" "k" (Value.dyn 1)⟩

end Locked

/-- C18 (mutations are local to their target): on every store, `Set(id, k,
v)` returns and, like `Delete(id, k)`, leaves `GetOk(id, k2)` unchanged for
every other key `k2 ≠ k`; and `Delete(id, k)` and `Clear(id)` leave
`GetOk(b, k2)` and `GetAllOk(b)` unchanged for every other id `b ≠ id`. -/
theorem mutation_local (s : Store α) (id b k k2 : String) (v : Value α) :
    (k2 ≠ k →
      (∃ s1, Set s id k v = some s1 ∧ GetOk s1 id k2 = GetOk s id k2) ∧
      GetOk (Delete s id k) id k2 = GetOk s id k2) ∧
    (b ≠ id →
      GetOk (Delete s id k) b k2 = GetOk s b k2 ∧
      GetAllOk (Delete s id k) b = GetAllOk s b ∧
      GetOk (Clear s id) b k2 = GetOk s b k2 ∧
      GetAllOk (Clear s id) b = GetAllOk s b) := by
  constructor
  · intro hk
    refine ⟨⟨_, Set_eq s id k v, ?_⟩, ?_⟩
    · rw [GetOk_eq, GetOk_eq, contents_insert_self, indexOk_insert_of_ne _ hk]
    · rw [GetOk_eq, GetOk_eq, contents_Delete, if_pos rfl, indexOk_erase_of_ne _ hk]
  · intro hb
    refine ⟨?_, ?_, ?_, ?_⟩
    · rw [GetOk_eq, GetOk_eq, contents_Delete, if_neg hb]
    · rw [GetAllOk_eq, GetAllOk_eq, contents_Delete, if_neg hb, lookup_Delete_isSome]
    · rw [GetOk_eq, GetOk_eq, Clear_data, contents_erase_of_ne _ hb]
    · rw [GetAllOk_eq, GetAllOk_eq, Clear_data, contents_erase_of_ne _ hb,
        Finmap.lookup_erase_ne hb]

theorem mutation_local_witness :
    ("a" ≠ "k" ∧ "b" ≠ "r") ∧
    ((∃ s1, Set (Store.mk (Finmap.singleton "r" (some (Finmap.singleton "a" (Value.dyn 7)))))
          "r" "k" (Value.dyn 1) = some s1 ∧
        GetOk s1 "r" "a" =
          GetOk (Store.mk (Finmap.singleton "r" (some (Finmap.singleton "a" (Value.dyn 7)))))
            "r" "a") ∧
      GetOk (Delete (Store.mk (Finmap.singleton "r" (some (Finmap.singleton "a" (Value.dyn 7)))))
          "r" "k") "r" "a" =
        GetOk (Store.mk (Finmap.singleton "r" (some (Finmap.singleton "a" (Value.dyn 7)))))
          "r" "a") ∧
    (GetOk (Delete (Store.mk (Finmap.singleton "r" (some (Finmap.singleton "a" (Value.dyn 7)))))
        "r" "k") "b" "a" =
      GetOk (Store.mk (Finmap.singleton "r" (some (Finmap.singleton "a" (Value.dyn 7)))))
        "b" "a" ∧
    GetAllOk (Delete (Store.mk (Finmap.singleton "r" (some (Finmap.singleton "a" (Value.dyn 7)))))
        "r" "k") "b" =
      GetAllOk (Store.mk (Finmap.singleton "r" (some (Finmap.singleton "a" (Value.dyn 7))))) "b" ∧
    GetOk (Clear (Store.mk (Finmap.singleton "r" (some (Finmap.singleton "a" (Value.dyn 7)))))
        "r") "b" "a" =
      GetOk (Store.mk (Finmap.singleton "r" (some (Finmap.singleton "a" (Value.dyn 7)))))
        "b" "a" ∧
    GetAllOk (Clear (Store.mk (Finmap.singleton "r" (some (Finmap.singleton "a" (Value.dyn 7)))))
        "r") "b" =
      GetAllOk (Store.mk (Finmap.singleton "r" (some (Finmap.singleton "a" (Value.dyn 7)))))
        "b") :=
  ⟨⟨by decide, by decide⟩,
    (mutation_local _ "r" "b" "k" "a" (Value.dyn 1)).1 (by decide),
    (mutation_local _ "r" "b" "k" "a" (Value.dyn 1)).2 (by decide)⟩

/-- C19 (writes to different slots commute, repeated writes are idempotent):
on every store, if `(id1, k1) ≠ (id2, k2)` then `Set(id1, k1, v1); Set(id2,
k2, v2)` and `Set(id2, k2, v2); Set(id1, k1, v1)` all return and produce the
same store; and `Set(id, k, v); Set(id, k, v)` produces the same store as a
single `Set(id, k, v)`. -/
theorem set_commute_idempotent (s : Store α) (id1 k1 id2 k2 : String) (v1 v2 : Value α) :
    ((id1, k1) ≠ (id2, k2) →
      ∃ a ab b ba, Set s id1 k1 v1 = some a ∧ Set a id2 k2 v2 = some ab ∧
        Set s id2 k2 v2 = some b ∧ Set b id1 k1 v1 = some ba ∧ ab = ba) ∧
    (∃ a aa, Set s id1 k1 v1 = some a ∧ Set a id1 k1 v1 = some aa ∧ aa = a) := by
  constructor
  · intro hne
    refine ⟨_, _, _, _, Set_eq s id1 k1 v1, Set_eq _ id2 k2 v2, Set_eq s id2 k2 v2,
      Set_eq _ id1 k1 v1, ?_⟩
    by_cases hid : id1 = id2
    · subst hid
      have hk : k1 ≠ k2 := fun e => hne (by rw [e])
      simp only [contents_insert_self, Finmap.insert_insert]
      rw [Finmap.insert_insert_of_ne _ hk]
    · have hid2 : id2 ≠ id1 := fun e => hid e.symm
      simp only [contents_insert_of_ne _ hid, contents_insert_of_ne _ hid2]
      rw [Finmap.insert_insert_of_ne _ hid]
  · refine ⟨_, _, Set_eq s id1 k1 v1, Set_eq _ id1 k1 v1, ?_⟩
    simp only [contents_insert_self, Finmap.insert_insert]

theorem set_commute_idempotent_witness :
    ("r", "a") ≠ ("r", "b") ∧
    ∃ a ab b ba, Set (Store.empty : Store Nat) "r" "a" (Value.dyn 1) = some a ∧
      Set a "r" "b" (Value.dyn 2) = some ab ∧
      Set (Store.empty : Store Nat) "r" "b" (Value.dyn 2) = some b ∧
      Set b "r" "a" (Value.dyn 1) = some ba ∧ ab = ba :=
  ⟨by decide,
    (set_commute_idempotent (Store.empty : Store Nat) "r" "a" "r" "b" (Value.dyn 1)
      (Value.dyn 2)).1 (by decide)⟩

end Facts

end Context
